import Mathlib

/-
Verification development for the timeout-tree (TT) analysis program
`tt_analysis.py`.

Embedding conventions:
* The Python floats are modelled by exact rationals (ℚ); Python ints by ℤ.
* The feerate exponent `Ex` is a float in the source but is only ever used
  as an exponent of a positive rational base; it is modelled as a natural
  number (the assertions of the source require it to be strictly positive)
  so that all powers stay inside ℚ and every definition is executable.
* Division by zero in ℚ yields 0; the places where the Python program can
  actually raise `ZeroDivisionError` after its assertions have passed (the
  `cuf` computation when `Le = 0`, and the `capital_efficiency` denominator)
  are modelled by explicit error branches of `analyze_tt`; for every other
  division the development proves that the denominator is nonzero.
* The two 50-iteration binary-search loops of `analyze_tt` are modelled by
  iterating a step function on a state carrying `low_x`, `high_x` and the
  loop variable `x` (the most recently computed midpoint).
-/

/-- Block size capacity in vbytes (source constant `BLOCKSIZE`). -/
def BLOCKSIZE : ℚ := 4000000

/-- Average number of blocks per year (source constant `BLOCKS_PER_YEAR`,
`144*365.25`). -/
def BLOCKS_PER_YEAR : ℚ := 144 * 365.25

/-- Satoshis per bitcoin (source constant `SATOSHIS_PER_BITCOIN`). -/
def SATOSHIS_PER_BITCOIN : ℚ := 100000000

/-- Number of binary-search iterations (source constant `LOG_PRECISION`). -/
def LOG_PRECISION : ℕ := 50

/-- Feerate model of the source: `calc_feerate(Fe, Ex, x) = Fe / (1-x)**Ex`. -/
def calc_feerate (Fe : ℚ) (Ex : ℕ) (x : ℚ) : ℚ := Fe / (1 - x) ^ Ex

/-- Derivative of the feerate with respect to `x`:
`calc_feerate_derivative(Fe, Ex, x) = Fe * Ex / (1-x)**(Ex+1)`. -/
def calc_feerate_derivative (Fe : ℚ) (Ex : ℕ) (x : ℚ) : ℚ :=
  Fe * (Ex : ℚ) / (1 - x) ^ (Ex + 1)

/-- Fixed parameters of `analyze_tt` (row 2 of the input file), parsed by the
source with `int(...)`: active lifetime `Ac`, rollover period `Ro`, average
leaf transaction size `AS`, maximum leaf transaction size `MS`. -/
structure StaticParams where
  Ac : ℤ
  Ro : ℤ
  AS : ℤ
  MS : ℤ
deriving DecidableEq, Repr

/-- Dynamic parameters of `analyze_tt` (rows 4+ of the input file): base
feerate `Fe`, feerate exponent `Ex`, onchain probability `Pr`, leaf count
`Le`, total value `Va` and capital cost rate `Co`.  `Fe`, `Pr`, `Co` are
floats in the source (here ℚ), `Le` and `Va` are ints (here ℤ), and `Ex` is
modelled as a natural number (see the header comment). -/
structure DynamicParams where
  Fe : ℚ
  Ex : ℕ
  Pr : ℚ
  Le : ℤ
  Va : ℤ
  Co : ℚ
deriving DecidableEq, Repr

/-- Casual user's funds per leaf (source line:
`cuf = 2.0 * Va * SATOSHIS_PER_BITCOIN / (3.0 * Le)`). -/
def cuf (dp : DynamicParams) : ℚ :=
  2 * (dp.Va : ℚ) * SATOSHIS_PER_BITCOIN / (3 * (dp.Le : ℚ))

/-- State of one of the two binary-search loops: the lower bound `low_x`,
the upper bound `high_x` and the loop variable `x` holding the most recently
computed midpoint. -/
@[ext]
structure LoopState where
  low : ℚ
  high : ℚ
  x : ℚ
deriving DecidableEq, Repr

/-- Midpoint computed at the start of each loop iteration
(`x = (low_x + high_x) / 2.0`). -/
def midOf (s : LoopState) : ℚ := (s.low + s.high) / 2

/-- One iteration of a binary-search loop of the source: compute the
midpoint, and if the predicate `p` holds there shrink the upper bound to the
midpoint, otherwise raise the lower bound to the midpoint. -/
def bisectStep (p : ℚ → Prop) [DecidablePred p] (s : LoopState) : LoopState :=
  if p (midOf s) then ⟨s.low, midOf s, midOf s⟩ else ⟨midOf s, s.high, midOf s⟩

/-- List of the midpoints computed by `n` iterations of a binary-search loop
started from state `s`. -/
def bisectMids (p : ℚ → Prop) [DecidablePred p] : ℕ → LoopState → List ℚ
  | 0, _ => []
  | n + 1, s => midOf s :: bisectMids p n (bisectStep p s)

/-- Branch condition of the first (feasibility) loop:
`max_fee > cuf` with `max_fee = MS*calc_feerate(Fe, Ex, x)`. -/
abbrev stage1Cond (sp : StaticParams) (dp : DynamicParams) : ℚ → Prop :=
  fun x => cuf dp < (sp.MS : ℚ) * calc_feerate dp.Fe dp.Ex x

/-- Expected cost per leaf evaluated inside the second loop (source line:
`exp_cost = Va*SATOSHIS_PER_BITCOIN*Co*AS/(BLOCKS_PER_YEAR*BLOCKSIZE*x) +
Pr*AS*calc_feerate(Fe, Ex, x)`; its value is not used by the loop). -/
def exp_cost (sp : StaticParams) (dp : DynamicParams) (x : ℚ) : ℚ :=
  (dp.Va : ℚ) * SATOSHIS_PER_BITCOIN * dp.Co * (sp.AS : ℚ) /
      (BLOCKS_PER_YEAR * BLOCKSIZE * x) +
    dp.Pr * (sp.AS : ℚ) * calc_feerate dp.Fe dp.Ex x

/-- Derivative of the expected cost per leaf (source line:
`exp_cost_deriv = -Va*SATOSHIS_PER_BITCOIN*Co*AS/(BLOCKS_PER_YEAR*BLOCKSIZE*(x**2))
+ Pr*AS*calc_feerate_derivative(Fe, Ex, x)`). -/
def exp_cost_deriv (sp : StaticParams) (dp : DynamicParams) (x : ℚ) : ℚ :=
  -((dp.Va : ℚ) * SATOSHIS_PER_BITCOIN * dp.Co * (sp.AS : ℚ) /
      (BLOCKS_PER_YEAR * BLOCKSIZE * x ^ 2)) +
    dp.Pr * (sp.AS : ℚ) * calc_feerate_derivative dp.Fe dp.Ex x

/-- Branch condition of the second (cost-minimization) loop:
`exp_cost_deriv > 0.0`. -/
abbrev stage2Cond (sp : StaticParams) (dp : DynamicParams) : ℚ → Prop :=
  fun x => 0 < exp_cost_deriv sp dp x

/-- Initial state of the first loop: `low_x = 0.0`, `high_x = 1.0` (the loop
variable `x` is not yet defined in the source at this point; it is
initialised to 0 here and never read before the first iteration). -/
def initState : LoopState := ⟨0, 1, 0⟩

/-- State after the 50 iterations of the first (feasibility) loop. -/
def stage1Final (sp : StaticParams) (dp : DynamicParams) : LoopState :=
  (bisectStep (stage1Cond sp dp))^[LOG_PRECISION] initState

/-- Value of the loop variable `x` after the first loop: the midpoint
computed in its final iteration.  This is the feasibility bound `x_feasible`
used as the upper bound of the second loop. -/
def x1 (sp : StaticParams) (dp : DynamicParams) : ℚ := (stage1Final sp dp).x

/-- Initial state of the second loop (source lines `low_x = 0.0`,
`high_x = x`): the loop variable still holds the first loop's result. -/
def stage2Init (sp : StaticParams) (dp : DynamicParams) : LoopState :=
  ⟨0, x1 sp dp, x1 sp dp⟩

/-- State after the 50 iterations of the second (cost-minimization) loop. -/
def stage2Final (sp : StaticParams) (dp : DynamicParams) : LoopState :=
  (bisectStep (stage2Cond sp dp))^[LOG_PRECISION] (stage2Init sp dp)

/-- Optimal congestion fraction: the loop variable `x` after the second
loop, i.e. the midpoint computed in its final iteration. -/
def xOpt (sp : StaticParams) (dp : DynamicParams) : ℚ := (stage2Final sp dp).x

/-- Midpoints computed by the 50 iterations of the first loop. -/
def stage1Mids (sp : StaticParams) (dp : DynamicParams) : List ℚ :=
  bisectMids (stage1Cond sp dp) LOG_PRECISION initState

/-- Midpoints computed by the 50 iterations of the second loop. -/
def stage2Mids (sp : StaticParams) (dp : DynamicParams) : List ℚ :=
  bisectMids (stage2Cond sp dp) LOG_PRECISION (stage2Init sp dp)

/-- Maximum onchain fee at the optimum (source:
`max_fee = MS*calc_feerate(Fe, Ex, x)`). -/
def max_fee (sp : StaticParams) (dp : DynamicParams) : ℚ :=
  (sp.MS : ℚ) * calc_feerate dp.Fe dp.Ex (xOpt sp dp)

/-- Maximum onchain fee as a fraction of the casual user's funds (source:
`onchain_fee_fraction = max_fee / cuf`). -/
def onchain_fee_fraction (sp : StaticParams) (dp : DynamicParams) : ℚ :=
  max_fee sp dp / cuf dp

/-- Average fee per leaf (source: `ave_fee = AS*calc_feerate(Fe, Ex, x)`). -/
def ave_fee (sp : StaticParams) (dp : DynamicParams) : ℚ :=
  (sp.AS : ℚ) * calc_feerate dp.Fe dp.Ex (xOpt sp dp)

/-- Expected fee per leaf (source: `expected_fee = Pr*ave_fee`). -/
def expected_fee (sp : StaticParams) (dp : DynamicParams) : ℚ :=
  dp.Pr * ave_fee sp dp

/-- Security delay in blocks (source:
`security_delay_blocks = int(math.ceil(Le*AS/(BLOCKSIZE*x)))`). -/
def security_delay_blocks (sp : StaticParams) (dp : DynamicParams) : ℤ :=
  ⌈(dp.Le : ℚ) * (sp.AS : ℚ) / (BLOCKSIZE * xOpt sp dp)⌉

/-- Security delay in years (source:
`security_delay_years = float(security_delay_blocks) / BLOCKS_PER_YEAR`). -/
def security_delay_years (sp : StaticParams) (dp : DynamicParams) : ℚ :=
  (security_delay_blocks sp dp : ℚ) / BLOCKS_PER_YEAR

/-- Capital cost per leaf (source: `capital_cost =
Va*SATOSHIS_PER_BITCOIN*Co*security_delay_blocks/(BLOCKS_PER_YEAR*Le)`). -/
def capital_cost (sp : StaticParams) (dp : DynamicParams) : ℚ :=
  (dp.Va : ℚ) * SATOSHIS_PER_BITCOIN * dp.Co *
      (security_delay_blocks sp dp : ℚ) /
    (BLOCKS_PER_YEAR * (dp.Le : ℚ))

/-- Capital efficiency (source: `capital_efficiency =
(2.0/3.0) * Ac / (Ac + Ro + security_delay_blocks)`). -/
def capital_efficiency (sp : StaticParams) (dp : DynamicParams) : ℚ :=
  2 / 3 * (sp.Ac : ℚ) /
    ((sp.Ac : ℚ) + (sp.Ro : ℚ) + (security_delay_blocks sp dp : ℚ))

/-- Expected overhead fraction (source: `expected_overhead_fraction =
(capital_cost + expected_fee) / cuf`). -/
def expected_overhead_fraction (sp : StaticParams) (dp : DynamicParams) : ℚ :=
  (capital_cost sp dp + expected_fee sp dp) / cuf dp

/-- Output row written by `analyze_tt` for one scenario (source
`out_csv.writerow` call): the six dynamic parameters followed by the nine
derived metrics, all as rational values. -/
def outputRow (sp : StaticParams) (dp : DynamicParams) : List ℚ :=
  [dp.Fe, (dp.Ex : ℚ), dp.Pr, (dp.Le : ℚ), (dp.Va : ℚ), dp.Co,
    xOpt sp dp, (security_delay_blocks sp dp : ℚ), security_delay_years sp dp,
    capital_cost sp dp, capital_efficiency sp dp, max_fee sp dp,
    onchain_fee_fraction sp dp, expected_fee sp dp,
    expected_overhead_fraction sp dp]

/-- Conjunction of the ten parameter assertions of `analyze_tt` (source lines
`assert Ac >= 0.0` through `assert 0.0 <= Co <= 1.0`), in the source's
order. -/
abbrev paramAssertsOK (sp : StaticParams) (dp : DynamicParams) : Prop :=
  0 ≤ sp.Ac ∧ 0 ≤ sp.Ro ∧ 0 ≤ sp.AS ∧ sp.AS ≤ sp.MS ∧ 0 ≤ dp.Fe ∧
  0 < dp.Ex ∧ 0 ≤ dp.Pr ∧ dp.Pr ≤ 1 ∧ 0 ≤ dp.Le ∧ 0 ≤ dp.Va ∧
  0 ≤ dp.Co ∧ dp.Co ≤ 1

/-- All preconditions of `analyze_tt`: the ten parameter assertions together
with the feasibility assertion `cuf > MS*Fe`. -/
abbrev invariantsOK (sp : StaticParams) (dp : DynamicParams) : Prop :=
  paramAssertsOK sp dp ∧ (sp.MS : ℚ) * dp.Fe < cuf dp

/-- Failure modes of the Python `analyze_tt`: a failed `assert` statement,
or an uncaught division by zero. -/
inductive AnalyzeError where
  | assertionError : AnalyzeError
  | zeroDivisionError : AnalyzeError
deriving DecidableEq, Repr

/-- The whole `analyze_tt` function.  The ten parameter assertions are
checked first; then the `cuf` computation divides by `3.0*Le`, which raises
`ZeroDivisionError` exactly when `Le = 0`; then the feasibility assertion
`cuf > MS*Fe` is checked; then the two loops and the metrics are computed
(all further divisions provably have nonzero denominators except the
`capital_efficiency` denominator `Ac + Ro + security_delay_blocks`, which is
modelled by the remaining error branch) and the output row is emitted. -/
def analyze_tt (sp : StaticParams) (dp : DynamicParams) :
    Except AnalyzeError (List ℚ) :=
  if paramAssertsOK sp dp then
    if dp.Le = 0 then .error .zeroDivisionError
    else if (sp.MS : ℚ) * dp.Fe < cuf dp then
      if (sp.Ac : ℚ) + (sp.Ro : ℚ) + (security_delay_blocks sp dp : ℚ) = 0 then
        .error .zeroDivisionError
      else .ok (outputRow sp dp)
    else .error .assertionError
  else .error .assertionError

/-- Casual user's funds per leaf exactly as the claims state it:
`(2/3) * totalValue_in_satoshis / leafCount`. -/
def specCuf (dp : DynamicParams) : ℚ :=
  2 / 3 * ((dp.Va : ℚ) * SATOSHIS_PER_BITCOIN) / (dp.Le : ℚ)

/-- Maximum onchain fee exactly as claim C2 states it:
`maxFee = MS * feerate(Fe, Ex, xOpt)`. -/
def specMaxFee (sp : StaticParams) (dp : DynamicParams) : ℚ :=
  (sp.MS : ℚ) * calc_feerate dp.Fe dp.Ex (xOpt sp dp)

/-- Onchain fee fraction exactly as claim C2 states it:
`onchainFeeFraction = maxFee / cuf`. -/
def specOnchainFeeFraction (sp : StaticParams) (dp : DynamicParams) : ℚ :=
  specMaxFee sp dp / specCuf dp

/-- Expected fee exactly as claim C2 states it:
`expectedFee = Pr * AS * feerate(Fe, Ex, xOpt)`. -/
def specExpectedFee (sp : StaticParams) (dp : DynamicParams) : ℚ :=
  dp.Pr * (sp.AS : ℚ) * calc_feerate dp.Fe dp.Ex (xOpt sp dp)

/-- Security delay in blocks exactly as claim C2 states it:
`securityDelayBlocks = ceil(Le * AS / (BLOCKSIZE * xOpt))` as an integer. -/
def specSecurityDelayBlocks (sp : StaticParams) (dp : DynamicParams) : ℤ :=
  ⌈(dp.Le : ℚ) * (sp.AS : ℚ) / (BLOCKSIZE * xOpt sp dp)⌉

/-- Security delay in years exactly as claim C2 states it:
`securityDelayYears = securityDelayBlocks / BLOCKS_PER_YEAR`. -/
def specSecurityDelayYears (sp : StaticParams) (dp : DynamicParams) : ℚ :=
  (specSecurityDelayBlocks sp dp : ℚ) / BLOCKS_PER_YEAR

/-- Capital cost per leaf exactly as claim C2 states it:
`capitalCostPerLeaf = Va*SATOSHIS_PER_BITCOIN*Co*securityDelayBlocks /
(BLOCKS_PER_YEAR*Le)`. -/
def specCapitalCostPerLeaf (sp : StaticParams) (dp : DynamicParams) : ℚ :=
  (dp.Va : ℚ) * SATOSHIS_PER_BITCOIN * dp.Co *
      (specSecurityDelayBlocks sp dp : ℚ) /
    (BLOCKS_PER_YEAR * (dp.Le : ℚ))

/-- Capital efficiency exactly as claim C2 states it:
`capitalEfficiency = (2/3) * Ac / (Ac + Ro + securityDelayBlocks)`. -/
def specCapitalEfficiency (sp : StaticParams) (dp : DynamicParams) : ℚ :=
  2 / 3 * (sp.Ac : ℚ) /
    ((sp.Ac : ℚ) + (sp.Ro : ℚ) + (specSecurityDelayBlocks sp dp : ℚ))

/-- Expected overhead fraction exactly as claim C2 states it:
`expectedOverheadFraction = (capitalCostPerLeaf + expectedFee) / cuf`. -/
def specExpectedOverheadFraction (sp : StaticParams) (dp : DynamicParams) : ℚ :=
  (specCapitalCostPerLeaf sp dp + specExpectedFee sp dp) / specCuf dp

/-- Parameter-range or feasibility violation exactly as claim C4 lists it:
`Ac`, `Ro`, `AS`, `Va`, `Le` or `Fe` negative; `MS < AS`; `Ex ≤ 0` (here
`Ex = 0`, as `Ex` is a natural number); `Pr` or `Co` outside `[0,1]`; or
the feasibility invariant `cuf ≤ MS*Fe`. -/
def specViolation (sp : StaticParams) (dp : DynamicParams) : Prop :=
  sp.Ac < 0 ∨ sp.Ro < 0 ∨ sp.AS < 0 ∨ dp.Va < 0 ∨ dp.Le < 0 ∨ dp.Fe < 0 ∨
  sp.MS < sp.AS ∨ dp.Ex = 0 ∨ dp.Pr < 0 ∨ 1 < dp.Pr ∨ dp.Co < 0 ∨
  1 < dp.Co ∨ specCuf dp ≤ (sp.MS : ℚ) * dp.Fe

/-- The two formulations of the casual user's funds per leaf agree (also at
`Le = 0`, where both denominators vanish and both sides are the junk value
0 of rational division by zero). -/
theorem specCuf_eq_cuf (dp : DynamicParams) : specCuf dp = cuf dp := by
  unfold specCuf cuf
  simp only [div_eq_mul_inv, mul_inv]
  ring

/-- A loop step always stores the midpoint of its input state in the loop
variable `x`. -/
theorem bisectStep_x (p : ℚ → Prop) [DecidablePred p] (s : LoopState) :
    (bisectStep p s).x = midOf s := by
  unfold bisectStep
  split <;> rfl

/-- A loop step either shrinks the upper bound to the midpoint (when the
predicate holds there) or raises the lower bound to it. -/
theorem bisectStep_eq (p : ℚ → Prop) [DecidablePred p] (s : LoopState) :
    (p (midOf s) ∧ bisectStep p s = ⟨s.low, midOf s, midOf s⟩) ∨
    (¬ p (midOf s) ∧ bisectStep p s = ⟨midOf s, s.high, midOf s⟩) := by
  unfold bisectStep
  by_cases h : p (midOf s)
  · exact Or.inl ⟨h, by rw [if_pos h]⟩
  · exact Or.inr ⟨h, by rw [if_neg h]⟩

/-- One loop step preserves strict ordering of the bounds and keeps them
inside the input interval. -/
theorem bisectStep_bounds (p : ℚ → Prop) [DecidablePred p] (s : LoopState)
    (h : s.low < s.high) :
    s.low ≤ (bisectStep p s).low ∧ (bisectStep p s).low < (bisectStep p s).high ∧
      (bisectStep p s).high ≤ s.high := by
  have hm1 : s.low < midOf s := left_lt_add_div_two.mpr h
  have hm2 : midOf s < s.high := add_div_two_lt_right.mpr h
  rcases bisectStep_eq p s with ⟨-, he⟩ | ⟨-, he⟩ <;> rw [he]
  · exact ⟨le_refl _, hm1, le_of_lt hm2⟩
  · exact ⟨le_of_lt hm1, hm2, le_refl _⟩

/-- Iterating the loop preserves strict ordering of the bounds and keeps
them inside the initial interval. -/
theorem bisect_iter_bounds (p : ℚ → Prop) [DecidablePred p] (n : ℕ) :
    ∀ s : LoopState, s.low < s.high →
      s.low ≤ ((bisectStep p)^[n] s).low ∧
        ((bisectStep p)^[n] s).low < ((bisectStep p)^[n] s).high ∧
        ((bisectStep p)^[n] s).high ≤ s.high := by
  induction n with
  | zero => exact fun s h => ⟨le_refl _, h, le_refl _⟩
  | succ n ih =>
    intro s h
    rw [Function.iterate_succ_apply]
    obtain ⟨h1, h2, h3⟩ := bisectStep_bounds p s h
    obtain ⟨g1, g2, g3⟩ := ih (bisectStep p s) h2
    exact ⟨le_trans h1 g1, g2, le_trans g3 h3⟩

/-- After at least one iteration, the loop variable `x` (the most recent
midpoint) lies strictly inside the initial interval. -/
theorem bisect_iter_x_mem (p : ℚ → Prop) [DecidablePred p] (n : ℕ)
    (s : LoopState) (h : s.low < s.high) (hn : 0 < n) :
    s.low < ((bisectStep p)^[n] s).x ∧ ((bisectStep p)^[n] s).x < s.high := by
  obtain ⟨m, rfl⟩ : ∃ m, n = m + 1 := ⟨n - 1, (Nat.succ_pred_eq_of_pos hn).symm⟩
  rw [Function.iterate_succ_apply']
  obtain ⟨h1, h2, h3⟩ := bisect_iter_bounds p m s h
  rw [bisectStep_x]
  have hm1 : ((bisectStep p)^[m] s).low < midOf ((bisectStep p)^[m] s) :=
    left_lt_add_div_two.mpr h2
  have hm2 : midOf ((bisectStep p)^[m] s) < ((bisectStep p)^[m] s).high :=
    add_div_two_lt_right.mpr h2
  exact ⟨lt_of_le_of_lt h1 hm1, lt_of_lt_of_le hm2 h3⟩

/-- If the lower bound does not satisfy the predicate, it never does:
whenever the loop raises the lower bound to a midpoint, that midpoint just
failed the predicate. -/
theorem bisect_iter_low_not (p : ℚ → Prop) [DecidablePred p] (n : ℕ) :
    ∀ s : LoopState, ¬ p s.low → ¬ p (((bisectStep p)^[n] s).low) := by
  induction n with
  | zero => exact fun s h => h
  | succ n ih =>
    intro s h
    rw [Function.iterate_succ_apply]
    refine ih (bisectStep p s) ?_
    rcases bisectStep_eq p s with ⟨-, he⟩ | ⟨hm, he⟩ <;> rw [he]
    · exact h
    · exact hm

/-- The upper bound either satisfies the predicate (it was set to a midpoint
that did) or is still the initial upper bound. -/
theorem bisect_iter_high_or (p : ℚ → Prop) [DecidablePred p] (n : ℕ) :
    ∀ s : LoopState,
      p (((bisectStep p)^[n] s).high) ∨ ((bisectStep p)^[n] s).high = s.high := by
  induction n with
  | zero => exact fun s => Or.inr rfl
  | succ n ih =>
    intro s
    rw [Function.iterate_succ_apply]
    rcases ih (bisectStep p s) with hp | heq
    · exact Or.inl hp
    · rw [heq]
      rcases bisectStep_eq p s with ⟨hm, he⟩ | ⟨-, he⟩ <;> rw [he]
      · exact Or.inl hm
      · exact Or.inr rfl

/-- Each loop step halves the width of the search interval. -/
theorem bisectStep_halving (p : ℚ → Prop) [DecidablePred p] (s : LoopState) :
    (bisectStep p s).high - (bisectStep p s).low = (s.high - s.low) / 2 := by
  rcases bisectStep_eq p s with ⟨-, he⟩ | ⟨-, he⟩ <;> rw [he] <;> unfold midOf <;> ring

/-- The list of midpoints of `n` loop iterations has length `n`. -/
theorem bisectMids_length (p : ℚ → Prop) [DecidablePred p] (n : ℕ) :
    ∀ s : LoopState, (bisectMids p n s).length = n := by
  induction n with
  | zero => exact fun s => rfl
  | succ n ih =>
    intro s
    unfold bisectMids
    rw [List.length_cons, ih (bisectStep p s)]

/-- Every midpoint computed by the loop lies strictly inside the initial
search interval. -/
theorem bisectMids_mem (p : ℚ → Prop) [DecidablePred p] (n : ℕ) :
    ∀ s : LoopState, s.low < s.high →
      ∀ m ∈ bisectMids p n s, s.low < m ∧ m < s.high := by
  induction n with
  | zero =>
    intro s _ m hm
    simp [bisectMids] at hm
  | succ n ih =>
    intro s h m hm
    unfold bisectMids at hm
    rcases List.mem_cons.mp hm with rfl | hm
    · exact ⟨left_lt_add_div_two.mpr h, add_div_two_lt_right.mpr h⟩
    · obtain ⟨h1, h2, h3⟩ := bisectStep_bounds p s h
      obtain ⟨g1, g2⟩ := ih (bisectStep p s) h2 m hm
      exact ⟨lt_of_le_of_lt h1 g1, lt_of_lt_of_le g2 h3⟩

/-- The midpoints of `n + 1` iterations are the midpoint of the start state
followed by the midpoints of `n` iterations from the stepped state. -/
theorem bisectMids_succ (p : ℚ → Prop) [DecidablePred p] (n : ℕ) (s : LoopState) :
    bisectMids p (n + 1) s = midOf s :: bisectMids p n (bisectStep p s) := rfl

/-- When the predicate fails everywhere, every iteration raises the lower
bound, so after `n + 1` iterations the state is in closed form: the upper
bound is unchanged and the lower bound and loop variable both equal
`high - (high - low) / 2 ^ (n + 1)`. -/
theorem bisect_iter_allFalse (p : ℚ → Prop) [DecidablePred p]
    (hp : ∀ q : ℚ, ¬ p q) (n : ℕ) :
    ∀ s : LoopState,
      (bisectStep p)^[n + 1] s =
        ⟨s.high - (s.high - s.low) / 2 ^ (n + 1), s.high,
          s.high - (s.high - s.low) / 2 ^ (n + 1)⟩ := by
  induction n with
  | zero =>
    intro s
    rw [Function.iterate_one]
    rcases bisectStep_eq p s with ⟨hm, -⟩ | ⟨-, he⟩
    · exact absurd hm (hp _)
    · rw [he]
      ext <;> simp only [midOf] <;> rw [zero_add, pow_one] <;> ring
  | succ n ih =>
    intro s
    rw [Function.iterate_succ_apply]
    rcases bisectStep_eq p s with ⟨hm, -⟩ | ⟨-, he⟩
    · exact absurd hm (hp _)
    · rw [he, ih ⟨midOf s, s.high, midOf s⟩]
      have h2 : (2 : ℚ) ^ (n + 1 + 1) = 2 ^ (n + 1) * 2 := pow_succ 2 (n + 1)
      ext <;> simp only [midOf] <;> rw [h2] <;> ring

/-- When the predicate holds everywhere, every iteration shrinks the upper
bound, so after `n` iterations the lower bound is unchanged and the upper
bound equals `low + (high - low) / 2 ^ n`. -/
theorem bisect_iter_allTrue (p : ℚ → Prop) [DecidablePred p]
    (hp : ∀ q : ℚ, p q) (n : ℕ) :
    ∀ s : LoopState,
      ((bisectStep p)^[n] s).low = s.low ∧
        ((bisectStep p)^[n] s).high = s.low + (s.high - s.low) / 2 ^ n := by
  induction n with
  | zero =>
    intro s
    rw [Function.iterate_zero_apply]
    refine ⟨rfl, ?_⟩
    rw [pow_zero, div_one]
    ring
  | succ n ih =>
    intro s
    rw [Function.iterate_succ_apply]
    rcases bisectStep_eq p s with ⟨-, he⟩ | ⟨hm, -⟩
    · rw [he]
      obtain ⟨g1, g2⟩ := ih ⟨s.low, midOf s, midOf s⟩
      refine ⟨g1, ?_⟩
      rw [g2]
      show s.low + (midOf s - s.low) / 2 ^ n = s.low + (s.high - s.low) / 2 ^ (n + 1)
      have h2 : (2 : ℚ) ^ (n + 1) = 2 ^ n * 2 := pow_succ 2 n
      simp only [midOf]
      rw [h2]
      ring
    · exact absurd (hp _) hm

/-- The feasibility bound `x1` produced by the first loop is strictly
between 0 and 1, for every input. -/
theorem x1_mem (sp : StaticParams) (dp : DynamicParams) :
    0 < x1 sp dp ∧ x1 sp dp < 1 := by
  have h := bisect_iter_x_mem (stage1Cond sp dp) LOG_PRECISION initState
    (by norm_num [initState]) (by norm_num [LOG_PRECISION])
  simpa [x1, stage1Final, initState] using h

/-- The optimum `xOpt` produced by the second loop lies strictly between 0
and the feasibility bound `x1`, for every input. -/
theorem xOpt_mem (sp : StaticParams) (dp : DynamicParams) :
    0 < xOpt sp dp ∧ xOpt sp dp < x1 sp dp := by
  have h0 := (x1_mem sp dp).1
  have h := bisect_iter_x_mem (stage2Cond sp dp) LOG_PRECISION (stage2Init sp dp)
    (by simpa [stage2Init] using h0) (by norm_num [LOG_PRECISION])
  simpa [xOpt, stage2Final, stage2Init] using h

/-- When all preconditions hold, the casual user's funds per leaf are
strictly positive. -/
theorem cuf_pos_of_invariantsOK (sp : StaticParams) (dp : DynamicParams)
    (h : invariantsOK sp dp) : 0 < cuf dp := by
  obtain ⟨⟨-, -, hAS0, hMS, hFe, -, -, -, -, -, -, -⟩, hfeas⟩ := h
  have hMS0 : (0 : ℤ) ≤ sp.MS := le_trans hAS0 hMS
  have hprod : (0 : ℚ) ≤ (sp.MS : ℚ) * dp.Fe :=
    mul_nonneg (by exact_mod_cast hMS0) hFe
  linarith

/-- When all preconditions hold, the leaf count is at least 1 (a zero leaf
count forces the casual user's funds to the junk value 0, contradicting the
feasibility assertion). -/
theorem Le_pos_of_invariantsOK (sp : StaticParams) (dp : DynamicParams)
    (h : invariantsOK sp dp) : 1 ≤ dp.Le := by
  have hc := cuf_pos_of_invariantsOK sp dp h
  obtain ⟨⟨-, -, -, -, -, -, -, -, hLe0, -, -, -⟩, -⟩ := h
  have hne : dp.Le ≠ 0 := by
    intro h0
    unfold cuf at hc
    rw [h0] at hc
    simp at hc
  omega

/-- C1: in the second (cost-minimization) loop each of the 50 iterations
computes the midpoint, evaluates the closed-form cost derivative there, and
shrinks the upper bound to the midpoint when the derivative is positive,
otherwise raises the lower bound; the search starts from the interval with
lower bound 0 and upper bound equal to the Stage-1 result `x1`, and the
returned optimum always satisfies `0 < xOpt < x1` (the hypothesis
`0 < x1` of the claim holds unconditionally, by `x1_mem`). -/
theorem C1_stage2_cost_minimization (sp : StaticParams) (dp : DynamicParams) :
    (∀ s : LoopState,
        bisectStep (stage2Cond sp dp) s =
          if 0 < -((dp.Va : ℚ) * SATOSHIS_PER_BITCOIN * dp.Co * (sp.AS : ℚ) /
                (BLOCKS_PER_YEAR * BLOCKSIZE * midOf s ^ 2)) +
              dp.Pr * (sp.AS : ℚ) * calc_feerate_derivative dp.Fe dp.Ex (midOf s)
          then ⟨s.low, midOf s, midOf s⟩
          else ⟨midOf s, s.high, midOf s⟩) ∧
    xOpt sp dp = ((bisectStep (stage2Cond sp dp))^[50] ⟨0, x1 sp dp, x1 sp dp⟩).x ∧
    0 < xOpt sp dp ∧ xOpt sp dp < x1 sp dp :=
  ⟨fun _ => rfl, rfl, xOpt_mem sp dp⟩

/-- C2: the metric formulas computed by the source agree exactly with the
formulas stated by the claim, and the output row lists the six dynamic
parameters followed by the nine metrics in the claimed fixed order. -/
theorem C2_metric_derivation (sp : StaticParams) (dp : DynamicParams) :
    max_fee sp dp = specMaxFee sp dp ∧
    onchain_fee_fraction sp dp = specOnchainFeeFraction sp dp ∧
    expected_fee sp dp = specExpectedFee sp dp ∧
    security_delay_blocks sp dp = specSecurityDelayBlocks sp dp ∧
    security_delay_years sp dp = specSecurityDelayYears sp dp ∧
    capital_cost sp dp = specCapitalCostPerLeaf sp dp ∧
    capital_efficiency sp dp = specCapitalEfficiency sp dp ∧
    expected_overhead_fraction sp dp = specExpectedOverheadFraction sp dp ∧
    outputRow sp dp =
      [dp.Fe, (dp.Ex : ℚ), dp.Pr, (dp.Le : ℚ), (dp.Va : ℚ), dp.Co,
        xOpt sp dp, (specSecurityDelayBlocks sp dp : ℚ),
        specSecurityDelayYears sp dp, specCapitalCostPerLeaf sp dp,
        specCapitalEfficiency sp dp, specMaxFee sp dp,
        specOnchainFeeFraction sp dp, specExpectedFee sp dp,
        specExpectedOverheadFraction sp dp] := by
  have hef : expected_fee sp dp = specExpectedFee sp dp := by
    unfold expected_fee ave_fee specExpectedFee
    ring
  have hoff : onchain_fee_fraction sp dp = specOnchainFeeFraction sp dp := by
    unfold onchain_fee_fraction specOnchainFeeFraction
    rw [specCuf_eq_cuf]
    rfl
  have heof :
      expected_overhead_fraction sp dp = specExpectedOverheadFraction sp dp := by
    unfold expected_overhead_fraction specExpectedOverheadFraction
    rw [specCuf_eq_cuf, ← hef]
    rfl
  refine ⟨rfl, hoff, hef, rfl, rfl, rfl, rfl, heof, ?_⟩
  unfold outputRow
  rw [hoff, hef, heof]
  rfl

/-- C3 (counterexample): the claimed invariant fails on the input with
`Ac = Ro = AS = MS = 0`, `Fe = 0`, `Ex = 1`, `Pr = 0`, `Le = 1`, `Va = 1`,
`Co = 0`, which satisfies the precondition `cuf > MS*Fe`: after the first
iteration the upper bound still equals the initial value 1, which neither
violates the fee constraint (the fee at `MS = 0` is 0) nor equals the
current midpoint `1/2`. -/
theorem C3_counterexample :
    ((StaticParams.mk 0 0 0 0).MS : ℚ) * (DynamicParams.mk 0 1 0 1 1 0).Fe <
        cuf (DynamicParams.mk 0 1 0 1 1 0) ∧
    ¬ (stage1Cond (StaticParams.mk 0 0 0 0) (DynamicParams.mk 0 1 0 1 1 0)
          (((bisectStep (stage1Cond (StaticParams.mk 0 0 0 0)
              (DynamicParams.mk 0 1 0 1 1 0)))^[1] initState).high) ∨
        ((bisectStep (stage1Cond (StaticParams.mk 0 0 0 0)
            (DynamicParams.mk 0 1 0 1 1 0)))^[1] initState).high =
          ((bisectStep (stage1Cond (StaticParams.mk 0 0 0 0)
              (DynamicParams.mk 0 1 0 1 1 0)))^[1] initState).x) := by
  have hcond : ¬ stage1Cond (StaticParams.mk 0 0 0 0)
      (DynamicParams.mk 0 1 0 1 1 0) (midOf initState) := by
    norm_num [stage1Cond, cuf, calc_feerate, initState, midOf,
      SATOSHIS_PER_BITCOIN]
  have hs : (bisectStep (stage1Cond (StaticParams.mk 0 0 0 0)
      (DynamicParams.mk 0 1 0 1 1 0)))^[1] initState =
      ⟨1 / 2, 1, 1 / 2⟩ := by
    rw [Function.iterate_one]
    unfold bisectStep
    rw [if_neg hcond]
    ext <;> norm_num [midOf, initState]
  constructor
  · norm_num [cuf, SATOSHIS_PER_BITCOIN]
  · rw [hs]
    push_neg
    constructor
    · norm_num [stage1Cond, cuf, calc_feerate, SATOSHIS_PER_BITCOIN]
    · norm_num

/-- C3 (amended): throughout the first (feasibility) loop, under the
precondition `cuf > MS*Fe`, the lower bound always satisfies the fee
constraint, and the upper bound either violates it or still equals the
initial upper bound 1 (the latter also covers the case in which the upper
bound was never moved, so it is not the current midpoint); whenever the
upper bound is moved it is set to the current midpoint, which violates the
constraint, so the first disjunct covers every moved upper bound.  The
search interval halves at every iteration, and the upper bound handed to
the second loop is exactly the midpoint computed in the 50th (final)
iteration. -/
theorem C3_amended_stage1_invariant (sp : StaticParams) (dp : DynamicParams)
    (h : (sp.MS : ℚ) * dp.Fe < cuf dp) :
    (∀ i : ℕ, i ≤ LOG_PRECISION →
        ¬ stage1Cond sp dp
            (((bisectStep (stage1Cond sp dp))^[i] initState).low) ∧
          (stage1Cond sp dp
              (((bisectStep (stage1Cond sp dp))^[i] initState).high) ∨
            ((bisectStep (stage1Cond sp dp))^[i] initState).high = 1)) ∧
    (∀ i : ℕ,
        ((bisectStep (stage1Cond sp dp))^[i + 1] initState).high -
            ((bisectStep (stage1Cond sp dp))^[i + 1] initState).low =
          (((bisectStep (stage1Cond sp dp))^[i] initState).high -
              ((bisectStep (stage1Cond sp dp))^[i] initState).low) / 2) ∧
    (stage2Init sp dp).high =
      midOf ((bisectStep (stage1Cond sp dp))^[49] initState) := by
  have hlow : ¬ stage1Cond sp dp initState.low := by
    show ¬ (cuf dp < (sp.MS : ℚ) * calc_feerate dp.Fe dp.Ex 0)
    unfold calc_feerate
    rw [sub_zero, one_pow, div_one]
    exact not_lt.mpr (le_of_lt h)
  refine ⟨fun i _ => ⟨bisect_iter_low_not _ i initState hlow, ?_⟩,
    fun i => ?_, ?_⟩
  · exact bisect_iter_high_or (stage1Cond sp dp) i initState
  · rw [Function.iterate_succ_apply']
    exact bisectStep_halving _ _
  · show ((bisectStep (stage1Cond sp dp))^[LOG_PRECISION] initState).x = _
    rw [show LOG_PRECISION = 49 + 1 from rfl, Function.iterate_succ_apply',
      bisectStep_x]

/-- C3 (witness for the amended claim): the amended invariant applied to the
concrete input `Ac = Ro = 0`, `AS = MS = 1`, `Fe = 0`, `Ex = 1`, `Pr = 0`,
`Le = 1`, `Va = 1`, `Co = 0`, whose precondition `MS*Fe < cuf` holds. -/
theorem C3_amended_witness :
    ((StaticParams.mk 0 0 1 1).MS : ℚ) * (DynamicParams.mk 0 1 0 1 1 0).Fe <
        cuf (DynamicParams.mk 0 1 0 1 1 0) ∧
    (stage2Init (StaticParams.mk 0 0 1 1) (DynamicParams.mk 0 1 0 1 1 0)).high =
      midOf ((bisectStep (stage1Cond (StaticParams.mk 0 0 1 1)
        (DynamicParams.mk 0 1 0 1 1 0)))^[49] initState) := by
  have hpre : ((StaticParams.mk 0 0 1 1).MS : ℚ) *
      (DynamicParams.mk 0 1 0 1 1 0).Fe < cuf (DynamicParams.mk 0 1 0 1 1 0) := by
    simp [cuf, SATOSHIS_PER_BITCOIN]
  exact ⟨hpre, (C3_amended_stage1_invariant (StaticParams.mk 0 0 1 1)
    (DynamicParams.mk 0 1 0 1 1 0) hpre).2.2⟩

/-- Violation of the claimed invariant list is exactly failure of the
preconditions of `analyze_tt`. -/
theorem specViolation_iff (sp : StaticParams) (dp : DynamicParams) :
    specViolation sp dp ↔ ¬ invariantsOK sp dp := by
  unfold specViolation invariantsOK paramAssertsOK
  rw [specCuf_eq_cuf]
  constructor
  · rintro (h | h | h | h | h | h | h | h | h | h | h | h | h)
      ⟨⟨hAc, hRo, hAS, hMS, hFe, hEx, hPr0, hPr1, hLe, hVa, hCo0, hCo1⟩,
        hfeas⟩ <;>
      first
        | omega
        | linarith
  · intro hn
    by_contra hno
    push_neg at hno
    obtain ⟨h1, h2, h3, h4, h5, h6, h7, h8, h9, h10, h11, h12, h13⟩ := hno
    exact hn ⟨⟨h1, h2, h3, h7, h6, Nat.pos_of_ne_zero h8, h9, h10, h5, h4,
      h11, h12⟩, h13⟩

/-- C4: for every input violating one of the listed parameter-range
invariants or the feasibility invariant, `analyze_tt` fails (with an
assertion error, or with the division-by-zero error that the `cuf`
computation raises when `Le = 0`) and emits no output row; for every input
satisfying all of them, no precondition (assertion) failure is raised. -/
theorem C4_precondition_failures (sp : StaticParams) (dp : DynamicParams) :
    (specViolation sp dp →
      ∃ e : AnalyzeError, analyze_tt sp dp = .error e) ∧
    (¬ specViolation sp dp →
      analyze_tt sp dp ≠ .error .assertionError) := by
  constructor
  · intro hv
    have hni := (specViolation_iff sp dp).mp hv
    unfold analyze_tt
    by_cases hOK : paramAssertsOK sp dp
    · rw [if_pos hOK]
      by_cases hLe : dp.Le = 0
      · rw [if_pos hLe]
        exact ⟨.zeroDivisionError, rfl⟩
      · rw [if_neg hLe]
        have hfeas : ¬ ((sp.MS : ℚ) * dp.Fe < cuf dp) := fun hf => hni ⟨hOK, hf⟩
        rw [if_neg hfeas]
        exact ⟨.assertionError, rfl⟩
    · rw [if_neg hOK]
      exact ⟨.assertionError, rfl⟩
  · intro hnv
    have hinv : invariantsOK sp dp := by
      by_contra hni
      exact hnv ((specViolation_iff sp dp).mpr hni)
    have hLe1 : 1 ≤ dp.Le := Le_pos_of_invariantsOK sp dp hinv
    obtain ⟨hOK, hfeas⟩ := hinv
    unfold analyze_tt
    rw [if_pos hOK, if_neg (by omega : ¬ dp.Le = 0), if_pos hfeas]
    by_cases hden :
        (sp.Ac : ℚ) + (sp.Ro : ℚ) + (security_delay_blocks sp dp : ℚ) = 0
    · rw [if_pos hden]
      simp
    · rw [if_neg hden]
      simp

/-- C4 (witness): a violating input (`Fe = -1`) on which `analyze_tt` fails,
and a satisfying input on which no assertion failure is raised. -/
theorem C4_witness :
    (specViolation (StaticParams.mk 0 0 0 0) (DynamicParams.mk (-1) 1 0 1 1 0) ∧
      ∃ e : AnalyzeError,
        analyze_tt (StaticParams.mk 0 0 0 0)
          (DynamicParams.mk (-1) 1 0 1 1 0) = .error e) ∧
    (¬ specViolation (StaticParams.mk 0 0 0 0) (DynamicParams.mk 0 1 0 1 1 0) ∧
      analyze_tt (StaticParams.mk 0 0 0 0) (DynamicParams.mk 0 1 0 1 1 0) ≠
        .error .assertionError) := by
  have hv : specViolation (StaticParams.mk 0 0 0 0)
      (DynamicParams.mk (-1) 1 0 1 1 0) := by
    simp [specViolation]
  have hnv : ¬ specViolation (StaticParams.mk 0 0 0 0)
      (DynamicParams.mk 0 1 0 1 1 0) := by
    simp [specViolation, specCuf, SATOSHIS_PER_BITCOIN]
  exact ⟨⟨hv, (C4_precondition_failures (StaticParams.mk 0 0 0 0)
      (DynamicParams.mk (-1) 1 0 1 1 0)).1 hv⟩,
    ⟨hnv, (C4_precondition_failures (StaticParams.mk 0 0 0 0)
      (DynamicParams.mk 0 1 0 1 1 0)).2 hnv⟩⟩

/-- C5 (code bug evaluation): on the input with `Le = 0` (and all other
parameters passing their assertions, here `Va = 1`, `Ex = 1`), the program
reaches the `cuf` division with a zero denominator before any explicit
check can reject the scenario: the division by `3.0*Le` raises a raw
`ZeroDivisionError` instead of the explicit detection the claim requires. -/
theorem C5_le_zero_division_propagates :
    analyze_tt (StaticParams.mk 0 0 0 0) (DynamicParams.mk 0 1 0 0 1 0) =
      .error .zeroDivisionError := by
  unfold analyze_tt
  rw [if_pos (by decide), if_pos rfl]

/-- C6: the feerate model returns exactly the claimed formulas, and for a
strictly positive base feerate both the feerate and its derivative are
strictly increasing on the interval from 0 (inclusive) to 1 (exclusive),
with the derivative strictly positive there. -/
theorem C6_feerate_model :
    (∀ (Fe : ℚ) (Ex : ℕ) (x : ℚ),
        calc_feerate Fe Ex x = Fe / (1 - x) ^ Ex ∧
          calc_feerate_derivative Fe Ex x = Fe * (Ex : ℚ) / (1 - x) ^ (Ex + 1)) ∧
    (∀ (Fe : ℚ) (Ex : ℕ) (x y : ℚ), 0 < Fe → 0 < Ex → 0 ≤ x → x < y → y < 1 →
        calc_feerate Fe Ex x < calc_feerate Fe Ex y ∧
          calc_feerate_derivative Fe Ex x < calc_feerate_derivative Fe Ex y ∧
          0 < calc_feerate_derivative Fe Ex x) := by
  refine ⟨fun Fe Ex x => ⟨rfl, rfl⟩, fun Fe Ex x y hFe hEx hx hxy hy => ?_⟩
  have hy1 : 0 < 1 - y := by linarith
  have hx1 : 0 < 1 - x := by linarith
  have hbase : 1 - y < 1 - x := by linarith
  have hnum : 0 < Fe * (Ex : ℚ) := mul_pos hFe (by exact_mod_cast hEx)
  refine ⟨?_, ?_, ?_⟩
  · unfold calc_feerate
    exact (div_lt_div_iff_of_pos_left hFe (pow_pos hx1 Ex) (pow_pos hy1 Ex)).mpr
      (pow_lt_pow_left₀ hbase (le_of_lt hy1) (Nat.pos_iff_ne_zero.mp hEx))
  · unfold calc_feerate_derivative
    exact (div_lt_div_iff_of_pos_left hnum (pow_pos hx1 (Ex + 1)) (pow_pos hy1 (Ex + 1))).mpr
      (pow_lt_pow_left₀ hbase (le_of_lt hy1) (Nat.succ_ne_zero Ex))
  · unfold calc_feerate_derivative
    exact div_pos hnum (pow_pos hx1 (Ex + 1))

/-- C6 (witness): the monotonicity and positivity statements evaluated at
`Fe = 1`, `Ex = 1`, `x = 0`, `y = 1/2`. -/
theorem C6_witness :
    0 < (1 : ℚ) ∧ 0 < 1 ∧ (0 : ℚ) ≤ 0 ∧ (0 : ℚ) < 1 / 2 ∧ (1 / 2 : ℚ) < 1 ∧
      (calc_feerate 1 1 0 < calc_feerate 1 1 (1 / 2) ∧
        calc_feerate_derivative 1 1 0 < calc_feerate_derivative 1 1 (1 / 2) ∧
        0 < calc_feerate_derivative 1 1 0) :=
  ⟨one_pos, Nat.one_pos, le_refl 0, one_half_pos, one_half_lt_one,
    C6_feerate_model.2 1 1 0 (1 / 2) one_pos Nat.one_pos (le_refl 0)
      one_half_pos one_half_lt_one⟩

/-- Closed form of the second loop when the capital cost rate is zero but
the expected-fee term is nondegenerate: the cost derivative is then strictly
positive at every midpoint, so every iteration shrinks the upper bound and
after `i` iterations the state is the interval from 0 to `x1 / 2 ^ i`. -/
theorem stage2_closed_form_zero_co (sp : StaticParams) (dp : DynamicParams)
    (hCo : dp.Co = 0) (hPr : 0 < dp.Pr) (hAS : 0 < sp.AS) (hFe : 0 < dp.Fe)
    (hEx : 0 < dp.Ex) :
    ∀ i : ℕ,
      (bisectStep (stage2Cond sp dp))^[i] (stage2Init sp dp) =
        ⟨0, x1 sp dp / 2 ^ i, x1 sp dp / 2 ^ i⟩ := by
  obtain ⟨hx1pos, hx1lt⟩ := x1_mem sp dp
  intro i
  induction i with
  | zero =>
    rw [Function.iterate_zero_apply]
    unfold stage2Init
    ext <;> simp
  | succ i ih =>
    rw [Function.iterate_succ_apply', ih]
    have hmid : midOf ⟨0, x1 sp dp / 2 ^ i, x1 sp dp / 2 ^ i⟩ =
        x1 sp dp / 2 ^ (i + 1) := by
      unfold midOf
      rw [pow_succ]
      ring
    have hm0 : 0 < x1 sp dp / 2 ^ (i + 1) :=
      div_pos hx1pos (pow_pos two_pos (i + 1))
    have hm1 : x1 sp dp / 2 ^ (i + 1) < 1 :=
      (div_lt_one (pow_pos two_pos (i + 1))).mpr
        (lt_of_lt_of_le hx1lt (one_le_pow₀ one_le_two))
    have hcond : stage2Cond sp dp (midOf ⟨0, x1 sp dp / 2 ^ i, x1 sp dp / 2 ^ i⟩) := by
      rw [hmid]
      show 0 < exp_cost_deriv sp dp (x1 sp dp / 2 ^ (i + 1))
      unfold exp_cost_deriv
      rw [hCo]
      simp only [mul_zero, zero_mul, zero_div, neg_zero, zero_add]
      unfold calc_feerate_derivative
      exact mul_pos (mul_pos hPr (by exact_mod_cast hAS))
        (div_pos (mul_pos hFe (by exact_mod_cast hEx))
          (pow_pos (by linarith) (dp.Ex + 1)))
    unfold bisectStep
    rw [if_pos hcond, hmid]

/-- C7 (counterexample): the input with `Ac = Ro = AS = MS = 0`, `Fe = 0`,
`Ex = 1`, `Pr = 0`, `Le = 1`, `Va = 1`, `Co = 0` passes every precondition
and has zero capital cost rate, yet the returned optimum is not within
`2 ^ (-50)` of the lower search bound 0: because the expected-fee term also
vanishes, the cost derivative is identically zero, and the search drives
`x` to the upper bound instead. -/
theorem C7_counterexample :
    invariantsOK (StaticParams.mk 0 0 0 0) (DynamicParams.mk 0 1 0 1 1 0) ∧
    (DynamicParams.mk 0 1 0 1 1 0).Co = 0 ∧
    ¬ (xOpt (StaticParams.mk 0 0 0 0) (DynamicParams.mk 0 1 0 1 1 0) ≤
        1 / 2 ^ LOG_PRECISION) := by
  have hs1 : ∀ q : ℚ, ¬ stage1Cond (StaticParams.mk 0 0 0 0)
      (DynamicParams.mk 0 1 0 1 1 0) q := by
    intro q
    show ¬ (cuf _ < ((0 : ℤ) : ℚ) * calc_feerate 0 1 q)
    norm_num [cuf, SATOSHIS_PER_BITCOIN]
  have hs2 : ∀ q : ℚ, ¬ stage2Cond (StaticParams.mk 0 0 0 0)
      (DynamicParams.mk 0 1 0 1 1 0) q := by
    intro q
    show ¬ (0 < exp_cost_deriv _ _ q)
    unfold exp_cost_deriv calc_feerate_derivative
    norm_num
  have hx1 : x1 (StaticParams.mk 0 0 0 0) (DynamicParams.mk 0 1 0 1 1 0) =
      1 - 1 / 2 ^ 50 := by
    unfold x1 stage1Final
    rw [show LOG_PRECISION = 49 + 1 from rfl, bisect_iter_allFalse _ hs1 49]
    show (1 : ℚ) - (1 - 0) / 2 ^ (49 + 1) = 1 - 1 / 2 ^ 50
    norm_num
  have hxo : xOpt (StaticParams.mk 0 0 0 0) (DynamicParams.mk 0 1 0 1 1 0) =
      (1 - 1 / 2 ^ 50 : ℚ) - (1 - 1 / 2 ^ 50) / 2 ^ 50 := by
    unfold xOpt stage2Final
    rw [show LOG_PRECISION = 49 + 1 from rfl, bisect_iter_allFalse _ hs2 49]
    show (stage2Init _ _).high - ((stage2Init _ _).high - (stage2Init _ _).low) /
        2 ^ (49 + 1) = _
    unfold stage2Init
    rw [hx1]
    norm_num
  refine ⟨⟨?_, ?_⟩, rfl, ?_⟩
  · refine ⟨le_refl 0, le_refl 0, le_refl 0, le_refl 0, le_refl 0,
      Nat.one_pos, le_refl 0, by norm_num, by norm_num, by norm_num,
      le_refl 0, by norm_num⟩
  · norm_num [cuf, SATOSHIS_PER_BITCOIN]
  · rw [hxo]
    show ¬ ((1 - 1 / 2 ^ 50 : ℚ) - (1 - 1 / 2 ^ 50) / 2 ^ 50 ≤ 1 / 2 ^ 50)
    norm_num

/-- C7 (amended): if the capital cost rate is zero and the expected-fee term
is nondegenerate (`Pr`, `AS`, `Fe` strictly positive, `Ex > 0`), the cost
derivative is strictly positive at every midpoint, so the second loop
shrinks the upper bound at every iteration and the returned optimum is
exactly `x1 / 2 ^ 50`, which is within `2 ^ (-50)` of the lower search
bound 0; and the reported capital cost per leaf is 0 (the latter needs only
`Co = 0`).  Without the nondegeneracy condition the derivative can vanish
identically and the search is driven to the upper bound instead, as the
counterexample shows. -/
theorem C7_amended_zero_capital_cost (sp : StaticParams) (dp : DynamicParams)
    (hCo : dp.Co = 0) (hPr : 0 < dp.Pr) (hAS : 0 < sp.AS) (hFe : 0 < dp.Fe)
    (hEx : 0 < dp.Ex) :
    xOpt sp dp = x1 sp dp / 2 ^ LOG_PRECISION ∧
      xOpt sp dp < 1 / 2 ^ LOG_PRECISION ∧
      capital_cost sp dp = 0 := by
  have hclosed := stage2_closed_form_zero_co sp dp hCo hPr hAS hFe hEx
  have hxo : xOpt sp dp = x1 sp dp / 2 ^ LOG_PRECISION := by
    unfold xOpt stage2Final
    rw [hclosed LOG_PRECISION]
  refine ⟨hxo, ?_, ?_⟩
  · rw [hxo]
    exact (div_lt_div_iff_of_pos_right (pow_pos two_pos LOG_PRECISION)).mpr
      (x1_mem sp dp).2
  · unfold capital_cost
    rw [hCo]
    simp

/-- C7 (witness for the amended claim): the amended claim applied to the
concrete input `Ac = Ro = 0`, `AS = MS = 1`, `Fe = 1`, `Ex = 1`, `Pr = 1`,
`Le = 1`, `Va = 1`, `Co = 0`. -/
theorem C7_amended_witness :
    (DynamicParams.mk 1 1 1 1 1 0).Co = 0 ∧
    0 < (DynamicParams.mk 1 1 1 1 1 0).Pr ∧
    0 < (StaticParams.mk 0 0 1 1).AS ∧
    0 < (DynamicParams.mk 1 1 1 1 1 0).Fe ∧
    0 < (DynamicParams.mk 1 1 1 1 1 0).Ex ∧
    (xOpt (StaticParams.mk 0 0 1 1) (DynamicParams.mk 1 1 1 1 1 0) =
        x1 (StaticParams.mk 0 0 1 1) (DynamicParams.mk 1 1 1 1 1 0) /
          2 ^ LOG_PRECISION ∧
      xOpt (StaticParams.mk 0 0 1 1) (DynamicParams.mk 1 1 1 1 1 0) <
        1 / 2 ^ LOG_PRECISION ∧
      capital_cost (StaticParams.mk 0 0 1 1) (DynamicParams.mk 1 1 1 1 1 0) = 0) :=
  ⟨rfl, by decide, by decide, by decide, by decide,
    C7_amended_zero_capital_cost (StaticParams.mk 0 0 1 1)
      (DynamicParams.mk 1 1 1 1 1 0) rfl (by decide) (by decide) (by decide)
      (by decide)⟩

/-- C8: each of the two loops computes exactly `LOG_PRECISION = 50`
midpoints (hence 50 iterations), for every input; the iteration count does
not depend on any parameter value. -/
theorem C8_fixed_iteration_count (sp : StaticParams) (dp : DynamicParams) :
    (stage1Mids sp dp).length = LOG_PRECISION ∧
    (stage2Mids sp dp).length = LOG_PRECISION ∧
    LOG_PRECISION = 50 :=
  ⟨bisectMids_length _ LOG_PRECISION initState,
    bisectMids_length _ LOG_PRECISION (stage2Init sp dp), rfl⟩

/-- C9: every midpoint computed by either loop lies strictly between 0 and
1, so the feerate denominator `(1-x)^Ex`, the cost denominators containing
`x` and `x^2`, and the product `BLOCKS_PER_YEAR*BLOCKSIZE*x` are all
nonzero at every evaluation point, for every input (the assertions of the
claim are not even needed). -/
theorem C9_midpoints_in_unit_interval (sp : StaticParams) (dp : DynamicParams) :
    (stage1Mids sp dp).Forall
        (fun m => 0 < m ∧ m < 1 ∧ (1 - m) ^ dp.Ex ≠ 0 ∧ m ^ 2 ≠ 0 ∧
          BLOCKS_PER_YEAR * BLOCKSIZE * m ≠ 0) ∧
    (stage2Mids sp dp).Forall
        (fun m => 0 < m ∧ m < 1 ∧ (1 - m) ^ dp.Ex ≠ 0 ∧ m ^ 2 ≠ 0 ∧
          BLOCKS_PER_YEAR * BLOCKSIZE * m ≠ 0) := by
  have hBP : BLOCKS_PER_YEAR * BLOCKSIZE ≠ 0 := by
    norm_num [BLOCKS_PER_YEAR, BLOCKSIZE]
  have build : ∀ m : ℚ, 0 < m → m < 1 →
      0 < m ∧ m < 1 ∧ (1 - m) ^ dp.Ex ≠ 0 ∧ m ^ 2 ≠ 0 ∧
        BLOCKS_PER_YEAR * BLOCKSIZE * m ≠ 0 := by
    intro m h0 h1
    exact ⟨h0, h1, pow_ne_zero _ (ne_of_gt (by linarith)),
      pow_ne_zero _ (ne_of_gt h0), mul_ne_zero hBP (ne_of_gt h0)⟩
  constructor <;> rw [List.forall_iff_forall_mem] <;> intro m hm
  · have h := bisectMids_mem (stage1Cond sp dp) LOG_PRECISION initState
      (by norm_num [initState]) m hm
    exact build m (by simpa [initState] using h.1) (by simpa [initState] using h.2)
  · have h := bisectMids_mem (stage2Cond sp dp) LOG_PRECISION (stage2Init sp dp)
      (by simpa [stage2Init] using (x1_mem sp dp).1) m hm
    have h2 : m < x1 sp dp := by simpa [stage2Init] using h.2
    exact build m (by simpa [stage2Init] using h.1)
      (lt_trans h2 (x1_mem sp dp).2)

/-- C10: for every input passing all assertions and with `AS ≥ 1` (which,
with the feasibility assertion, forces `Le ≥ 1`), the security delay is an
integer of at least 1 block, the capital-efficiency denominator
`Ac + Ro + security_delay_blocks` is strictly positive even when
`Ac = Ro = 0`, and the capital efficiency lies between 0 and `2/3`. -/
theorem C10_capital_efficiency_bounds (sp : StaticParams) (dp : DynamicParams)
    (h : invariantsOK sp dp) (hAS : 1 ≤ sp.AS) :
    1 ≤ security_delay_blocks sp dp ∧
      0 < (sp.Ac : ℚ) + (sp.Ro : ℚ) + (security_delay_blocks sp dp : ℚ) ∧
      0 ≤ capital_efficiency sp dp ∧
      capital_efficiency sp dp ≤ 2 / 3 := by
  have hLe := Le_pos_of_invariantsOK sp dp h
  obtain ⟨⟨hAc, hRo, hAS0, hMS, hFe, hEx, hPr0, hPr1, hLe0, hVa, hCo0, hCo1⟩,
    hfeas⟩ := h
  have hx := (xOpt_mem sp dp).1
  have hratio : 0 < (dp.Le : ℚ) * (sp.AS : ℚ) / (BLOCKSIZE * xOpt sp dp) :=
    div_pos
      (mul_pos (by exact_mod_cast lt_of_lt_of_le one_pos hLe)
        (by exact_mod_cast lt_of_lt_of_le one_pos hAS))
      (mul_pos (by norm_num [BLOCKSIZE]) hx)
  have hsdb : 1 ≤ security_delay_blocks sp dp := by
    have hpos : 0 < security_delay_blocks sp dp := Int.ceil_pos.mpr hratio
    omega
  have hDZ : (0 : ℤ) < sp.Ac + sp.Ro + security_delay_blocks sp dp := by omega
  have hD : 0 < (sp.Ac : ℚ) + (sp.Ro : ℚ) + (security_delay_blocks sp dp : ℚ) := by
    exact_mod_cast hDZ
  have hAcQ : (0 : ℚ) ≤ (sp.Ac : ℚ) := by exact_mod_cast hAc
  refine ⟨hsdb, hD, ?_, ?_⟩
  · unfold capital_efficiency
    exact div_nonneg (mul_nonneg (by norm_num) hAcQ) (le_of_lt hD)
  · unfold capital_efficiency
    rw [div_le_iff₀ hD]
    have hle : (sp.Ac : ℚ) ≤
        (sp.Ac : ℚ) + (sp.Ro : ℚ) + (security_delay_blocks sp dp : ℚ) := by
      have : sp.Ac ≤ sp.Ac + sp.Ro + security_delay_blocks sp dp := by omega
      exact_mod_cast this
    nlinarith

/-- C10 (witness): the bounds applied to the concrete input `Ac = Ro = 0`,
`AS = MS = 1`, `Fe = 0`, `Ex = 1`, `Pr = 0`, `Le = 1`, `Va = 1`, `Co = 0`,
which passes every precondition. -/
theorem C10_witness :
    invariantsOK (StaticParams.mk 0 0 1 1) (DynamicParams.mk 0 1 0 1 1 0) ∧
    1 ≤ (StaticParams.mk 0 0 1 1).AS ∧
    (1 ≤ security_delay_blocks (StaticParams.mk 0 0 1 1)
        (DynamicParams.mk 0 1 0 1 1 0) ∧
      0 < ((StaticParams.mk 0 0 1 1).Ac : ℚ) + ((StaticParams.mk 0 0 1 1).Ro : ℚ) +
        (security_delay_blocks (StaticParams.mk 0 0 1 1)
          (DynamicParams.mk 0 1 0 1 1 0) : ℚ) ∧
      0 ≤ capital_efficiency (StaticParams.mk 0 0 1 1)
        (DynamicParams.mk 0 1 0 1 1 0) ∧
      capital_efficiency (StaticParams.mk 0 0 1 1)
        (DynamicParams.mk 0 1 0 1 1 0) ≤ 2 / 3) := by
  have hOK : invariantsOK (StaticParams.mk 0 0 1 1) (DynamicParams.mk 0 1 0 1 1 0) := by
    refine ⟨by decide, ?_⟩
    simp [cuf, SATOSHIS_PER_BITCOIN]
  exact ⟨hOK, by decide,
    C10_capital_efficiency_bounds (StaticParams.mk 0 0 1 1)
      (DynamicParams.mk 0 1 0 1 1 0) hOK (by decide)⟩
